import Mathlib

/-!
Verification of the pr-dashboard data-fetch-and-normalize pipeline.

Shallow embedding of the core logic:
* record normalization (`app/types/index.ts`: `transformPullRequest`,
  `transformLabel`),
* the multi-repository fan-out of the GitHub client (`app/lib/github.ts`:
  `getPullRequestsForRepositories`, `getLabelsForRepositories`) and its
  rate-limit bookkeeping (`GitHubClient.fetch`),
* the client-side filter pass (`app/hooks/usePullRequests.ts`),
* the label grouping pass (`GroupedPRDisplay`),
* the label aggregation and repository-list parsing of the API routes
  (`app/api/github/labels/route.ts`, `app/api/github/pulls/route.ts`).

Timestamps are modelled as epoch-millisecond integers: the JS `new Date(s)`
parse of a wire timestamp is modelled as the parsed epoch value itself, and
`Date` comparison as integer comparison.
-/

namespace PRDash

/-- Epoch-millisecond timestamp (the value of JS `Date.getTime()`). -/
abbrev Timestamp := Int

/-- A JS string, modelled as its character sequence (so that every string
operation of the source computes by kernel reduction). -/
abbrev JSString := List Char

/-- JS `hay.startsWith(pre)`. -/
def jsStartsWith (hay pre : JSString) : Bool :=
  pre.isPrefixOf hay

/-- JS `hay.includes(sub)` (string argument: substring containment). -/
def jsIncludes : JSString → JSString → Bool
  | [], sub => sub.isEmpty
  | c :: t, sub => sub.isPrefixOf (c :: t) || jsIncludes t sub

/-- JS `s.split(sep)` for a one-character separator (the source only splits
on `','` and `'/'`). `"".split(sep)` is `[""]`, as in JS. -/
def jsSplit : JSString → Char → List JSString
  | [], _ => [[]]
  | c :: t, sep =>
    if c == sep then [] :: jsSplit t sep
    else
      match jsSplit t sep with
      | [] => [[c]]
      | h :: r => (c :: h) :: r

/-- JS `s.trim()`: strip leading and trailing whitespace. -/
def jsTrim (s : JSString) : JSString :=
  ((s.dropWhile Char.isWhitespace).reverse.dropWhile Char.isWhitespace).reverse

/-- JS `s.toLowerCase()` (per-character lowering; the ASCII data the
dashboard compares is unaffected by locale subtleties). -/
def jsToLower (s : JSString) : JSString :=
  s.map Char.toLower

/-- JS `n.toString()` for a number. -/
def jsNumberToString (n : Int) : JSString :=
  (toString n).toList

/-- `GitHubUser` (app/types/github.ts); the fields the embedded operations
read (`id`, `type` are never read by the core pipeline). -/
structure GitHubUser where
  login : JSString
  avatar_url : JSString
  html_url : JSString
deriving DecidableEq

/-- `GitHubLabel` (app/types/github.ts); the fields the embedded operations
read (`node_id`, `url`, `default` are never read by the core pipeline). -/
structure GitHubLabel where
  id : Int
  name : JSString
  color : JSString
  description : Option JSString
deriving DecidableEq

/-- The part of `GitHubRepository` (app/types/github.ts) read through
`pr.base.repo` by `transformPullRequest`. -/
structure GitHubRepository where
  id : Int
  name : JSString
  full_name : JSString
  owner : GitHubUser
deriving DecidableEq

/-- The raw remote pull-request state: `state: 'open' | 'closed'`
(app/types/github.ts line 40). `opened` embeds the literal `'open'`. -/
inductive RawPRState
  | opened
  | closed
deriving DecidableEq

/-- The branch descriptor `base` of `GitHubPullRequest`; the embedded
operations only read `base.repo`. -/
structure GitHubBranchRef where
  label : JSString
  ref : JSString
  sha : JSString
  repo : GitHubRepository
deriving DecidableEq

/-- `GitHubPullRequest` (app/types/github.ts lines 36-76); wire fields the
embedded operations read. Wire timestamps are carried as parsed epoch values
(see the module comment); optional wire fields are `Option`. -/
structure GitHubPullRequest where
  id : Int
  number : Int
  state : RawPRState
  title : JSString
  user : GitHubUser
  created_at : Timestamp
  updated_at : Timestamp
  closed_at : Option Timestamp
  merged_at : Option Timestamp
  assignees : List GitHubUser
  requested_reviewers : List GitHubUser
  labels : List GitHubLabel
  draft : Bool
  base : GitHubBranchRef
  html_url : JSString
  comments : Int
  review_comments : Int
  additions : Int
  deletions : Int
  changed_files : Int
deriving DecidableEq

/-- The normalized pull-request state
`'open' | 'closed' | 'merged' | 'draft'` (app/types/index.ts line 20). -/
inductive PRState
  | opened
  | closed
  | merged
  | draft
deriving DecidableEq

/-- The raw open/closed state passed through unchanged into the normalized
state space (`state = pr.state` branch of `transformPullRequest`). -/
def RawPRState.toPRState : RawPRState → PRState
  | .opened => .opened
  | .closed => .closed

/-- The normalized `author` sub-record of `PullRequest` (app/types/index.ts
lines 21-25). -/
structure Author where
  login : JSString
  avatarUrl : JSString
  url : JSString
deriving DecidableEq

/-- The normalized `repository` sub-record of `PullRequest`
(app/types/index.ts lines 26-30). -/
structure RepoInfo where
  name : JSString
  fullName : JSString
  owner : JSString
deriving DecidableEq

/-- The normalized `Label` (app/types/index.ts lines 48-53). -/
structure Label where
  id : Int
  name : JSString
  color : JSString
  description : Option JSString
deriving DecidableEq

/-- The normalized `PullRequest` (app/types/index.ts lines 16-46). -/
structure PullRequest where
  id : Int
  number : Int
  title : JSString
  state : PRState
  author : Author
  repository : RepoInfo
  labels : List Label
  assignees : List JSString
  reviewers : List JSString
  createdAt : Timestamp
  updatedAt : Timestamp
  closedAt : Option Timestamp
  mergedAt : Option Timestamp
  url : JSString
  comments : Int
  reviewComments : Int
  additions : Int
  deletions : Int
  changedFiles : Int
  isDraft : Bool
  isApproved : Bool
deriving DecidableEq

/-- `transformPullRequest` (app/types/index.ts lines 128-177). -/
def transformPullRequest (pr : GitHubPullRequest) : PullRequest :=
  let isMerged := pr.merged_at.isSome
  let isDraft := pr.draft
  let state : PRState :=
    if isDraft then .draft
    else if isMerged then .merged
    else pr.state.toPRState
  { id := pr.id
    number := pr.number
    title := pr.title
    state := state
    author := { login := pr.user.login
                avatarUrl := pr.user.avatar_url
                url := pr.user.html_url }
    repository := { name := pr.base.repo.name
                    fullName := pr.base.repo.full_name
                    owner := pr.base.repo.owner.login }
    labels := pr.labels.map (fun label =>
      { id := label.id
        name := label.name
        color := label.color
        description := label.description })
    assignees := pr.assignees.map GitHubUser.login
    reviewers := pr.requested_reviewers.map GitHubUser.login
    createdAt := pr.created_at
    updatedAt := pr.updated_at
    closedAt := pr.closed_at
    mergedAt := pr.merged_at
    url := pr.html_url
    comments := pr.comments
    reviewComments := pr.review_comments
    additions := pr.additions
    deletions := pr.deletions
    changedFiles := pr.changed_files
    isDraft := isDraft
    isApproved := false }

/-- `transformLabel` (app/types/index.ts lines 179-184). -/
def transformLabel (label : GitHubLabel) : Label :=
  { id := label.id
    name := label.name
    color := label.color
    description := label.description }

/-- Claim C1: for every raw pull-request record, the normalized `state` is
computed with precedence draft > merged > raw remote state: a record whose
draft flag is true normalizes to `draft` (even when a merge timestamp is also
set); otherwise a record with a merge timestamp normalizes to `merged`;
otherwise the raw open/closed state is passed through unchanged. -/
theorem transformPullRequest_state_precedence (pr : GitHubPullRequest) :
    (pr.draft = true → (transformPullRequest pr).state = PRState.draft)
    ∧ (pr.draft = false → pr.merged_at.isSome = true →
        (transformPullRequest pr).state = PRState.merged)
    ∧ (pr.draft = false → pr.merged_at = none →
        (transformPullRequest pr).state = pr.state.toPRState) := by
  refine ⟨fun hd => ?_, fun hd hm => ?_, fun hd hm => ?_⟩
  · simp [transformPullRequest, hd]
  · simp [transformPullRequest, hd, hm]
  · simp [transformPullRequest, hd, hm]

/-- A repository ref `{ owner, repo }` as the fan-out operations of
`GitHubClient` (app/lib/github.ts) receive it. -/
structure RepoRef where
  owner : JSString
  repo : JSString
deriving DecidableEq

/-- The template literal `` `${owner}/${repo}` `` pairing each fan-out result
with its originating ref. -/
def repoKey (r : RepoRef) : JSString :=
  r.owner ++ ['/'] ++ r.repo

/-- `GitHubAPIError` (app/lib/github.ts lines 9-18): message and optional
HTTP status; the attached response body is never read by the fan-out. -/
structure GitHubAPIError where
  message : JSString
  status : Option Int
deriving DecidableEq

/-- The `Promise.allSettled` step of the fan-out: each per-repository task
either fulfills with the repo key paired with the remote call's value, or
rejects. The remote call is abstracted as an oracle `call` from ref to
outcome (`Except` = rejected/fulfilled). JS `Promise.allSettled` resolves to
the settled outcomes in the order of its argument array (not completion
order), so the task list maps in input order. -/
def allSettledFanout {α : Type} (repositories : List RepoRef)
    (call : RepoRef → Except GitHubAPIError α) :
    List (Except GitHubAPIError (JSString × α)) :=
  repositories.map (fun r => (call r).map (fun v => (repoKey r, v)))

/-- The `filter(status === 'fulfilled') . map(result.value)` tail of both
fan-out operations: keep a fulfilled outcome's value, drop a rejection. -/
def keepFulfilled {a : Type} : Except GitHubAPIError a -> Option a
  | .ok v => some v
  | .error _ => none

/-- `GitHubClient.getPullRequestsForRepositories` (app/lib/github.ts lines
201-222): fan out the per-repository pull-request call over the refs, keep
the fulfilled results, drop the rejected ones. -/
def getPullRequestsForRepositories (repositories : List RepoRef)
    (call : RepoRef -> Except GitHubAPIError (List GitHubPullRequest)) :
    List (JSString × List GitHubPullRequest) :=
  (allSettledFanout repositories call).filterMap keepFulfilled

/-- `GitHubClient.getLabelsForRepositories` (app/lib/github.ts lines
227-243): fan out the per-repository label call over the refs, keep the
fulfilled results, drop the rejected ones. -/
def getLabelsForRepositories (repositories : List RepoRef)
    (call : RepoRef -> Except GitHubAPIError (List GitHubLabel)) :
    List (JSString × List GitHubLabel) :=
  (allSettledFanout repositories call).filterMap keepFulfilled

/-- The per-ref entry the fan-out keeps: the successful call's value paired
with the ref's `owner/name` key, nothing for a failed call (statement
helper for the fan-out claims). -/
def successEntry {a : Type} (call : RepoRef -> Except GitHubAPIError a)
    (r : RepoRef) : Option (JSString × a) :=
  match call r with
  | .ok v => some (repoKey r, v)
  | .error _ => none

/-- Whether the per-repository call for `r` succeeds (statement helper for
the fan-out claims). -/
def callSucceeds {a : Type} (call : RepoRef -> Except GitHubAPIError a)
    (r : RepoRef) : Bool :=
  match call r with
  | .ok _ => true
  | .error _ => false

/-- The settled-then-filtered fan-out is the input-ordered `filterMap` of the
successful entries over the refs (shared helper for the fan-out claims). -/
theorem fanout_eq_filterMap {a : Type} (repositories : List RepoRef)
    (call : RepoRef -> Except GitHubAPIError a) :
    (allSettledFanout repositories call).filterMap keepFulfilled
      = repositories.filterMap (successEntry call) := by
  induction repositories with
  | nil => rfl
  | cons r rs ih =>
    have step : allSettledFanout (r :: rs) call
        = ((call r).map (fun v => (repoKey r, v))) :: allSettledFanout rs call := rfl
    rw [step, List.filterMap_cons, List.filterMap_cons]
    cases hc : call r
    · simpa [Except.map, keepFulfilled, successEntry, hc] using ih
    · simpa [Except.map, keepFulfilled, successEntry, hc] using ih

/-- The keys of the settled-then-filtered fan-out are the keys of the
successful refs in input order (shared helper for the fan-out claims). -/
theorem fanout_keys_eq_filter {a : Type} (repositories : List RepoRef)
    (call : RepoRef -> Except GitHubAPIError a) :
    ((allSettledFanout repositories call).filterMap keepFulfilled).map Prod.fst
      = (repositories.filter (callSucceeds call)).map repoKey := by
  rw [fanout_eq_filterMap repositories call]
  induction repositories with
  | nil => rfl
  | cons r rs ih =>
    rw [List.filterMap_cons, List.filter_cons]
    cases hc : call r
    · simpa [successEntry, callSucceeds, hc] using ih
    · simpa [successEntry, callSucceeds, hc] using ih

/-- Claim C2: for every list of repository refs and every assignment of
success/failure to the per-repository remote calls, the multi-repository
fan-out (for pull requests and for labels) raises no error (it is a total
function of the settled outcomes), returns exactly one result per successful
ref paired with that ref's `owner/name` key, and contains no entry for any
failed ref: it equals the `filterMap` keeping precisely the successful calls. -/
theorem fanout_partial_failure_policy (repositories : List RepoRef)
    (callPulls : RepoRef -> Except GitHubAPIError (List GitHubPullRequest))
    (callLabels : RepoRef -> Except GitHubAPIError (List GitHubLabel)) :
    getPullRequestsForRepositories repositories callPulls
      = repositories.filterMap (successEntry callPulls)
    ∧ getLabelsForRepositories repositories callLabels
      = repositories.filterMap (successEntry callLabels) := by
  constructor
  · rw [getPullRequestsForRepositories, fanout_eq_filterMap]
  · rw [getLabelsForRepositories, fanout_eq_filterMap]

/-- Claim C10: for every input list of repository refs and every assignment
of success/failure to the per-repository calls, the fan-out's results appear
in the same relative order as their originating refs in the input list: the
key sequence of the output equals the input list filtered to the successful
refs (in input order) and mapped to `owner/name` keys. The order is
deterministic given which refs succeed; it is not completion order. -/
theorem fanout_output_order_matches_input (repositories : List RepoRef)
    (callPulls : RepoRef -> Except GitHubAPIError (List GitHubPullRequest))
    (callLabels : RepoRef -> Except GitHubAPIError (List GitHubLabel)) :
    (getPullRequestsForRepositories repositories callPulls).map Prod.fst
      = (repositories.filter (callSucceeds callPulls)).map repoKey
    ∧ (getLabelsForRepositories repositories callLabels).map Prod.fst
      = (repositories.filter (callSucceeds callLabels)).map repoKey := by
  constructor
  · rw [getPullRequestsForRepositories, fanout_keys_eq_filter]
  · rw [getLabelsForRepositories, fanout_keys_eq_filter]

/-- One entry of the `groups` array of `GroupedPRDisplay`
(`PRGroup` interface, GroupedPRDisplay.tsx lines 15-19). -/
structure PRGroup where
  label : JSString
  labelColor : JSString
  pullRequests : List PullRequest
deriving DecidableEq

/-- The prefix-group test of `GroupedPRDisplay`, computed by the identical
expression in the group pass (lines 51-52) and in the remainder pass (lines
76-77): the selected label contains no colon, and at least one available
label's name starts with `selectedLabel + ":"`. -/
def isPrefixGroup (labelName : JSString) (availableLabels : List Label) : Bool :=
  !(jsIncludes labelName [':']) &&
    availableLabels.any (fun l => jsStartsWith l.name (labelName ++ [':']))

/-- The JS hex literal `'6b7280'` (neutral fallback group color). -/
def neutralColor : JSString := "6b7280".toList

/-- One group of the `groups` computation of `GroupedPRDisplay` (the body of
the `groupByLabels.map` at lines 45-70): membership by prefix or exact match
depending on `isPrefixGroup`; color `label?.color || '6b7280'` (JS `||`: an
empty color string also falls back). -/
def mkGroup (pullRequests : List PullRequest) (availableLabels : List Label)
    (labelName : JSString) : PRGroup :=
  let lab := availableLabels.find? (fun l => l.name == labelName)
  let prsWithLabel := pullRequests.filter (fun pr =>
    pr.labels.any (fun l =>
      if isPrefixGroup labelName availableLabels then
        jsStartsWith l.name (labelName ++ [':'])
      else l.name == labelName))
  { label := labelName
    labelColor := match lab with
      | some l => if l.color.isEmpty then neutralColor else l.color
      | none => neutralColor
    pullRequests := prsWithLabel }

/-- The `groups` computation of `GroupedPRDisplay` (lines 45-70): one group
per selected label, in selection order. -/
def groupsOf (pullRequests : List PullRequest) (groupByLabels : List JSString)
    (availableLabels : List Label) : List PRGroup :=
  groupByLabels.map (mkGroup pullRequests availableLabels)

/-- The `ungroupedPRs` computation of `GroupedPRDisplay` (lines 73-84): the
independently coded remainder pass, re-deriving the prefix-vs-exact decision
per selected label inside a record-centric double `some`. -/
def ungroupedPRs (pullRequests : List PullRequest) (groupByLabels : List JSString)
    (availableLabels : List Label) : List PullRequest :=
  pullRequests.filter (fun pr =>
    !(pr.labels.any (fun prLabel =>
      groupByLabels.any (fun selectedLabel =>
        if isPrefixGroup selectedLabel availableLabels then
          jsStartsWith prLabel.name (selectedLabel ++ [':'])
        else prLabel.name == selectedLabel))))

theorem mkGroup_label (pullRequests : List PullRequest)
    (availableLabels : List Label) (labelName : JSString) :
    (mkGroup pullRequests availableLabels labelName).label = labelName := rfl

theorem mkGroup_pullRequests (pullRequests : List PullRequest)
    (availableLabels : List Label) (labelName : JSString) :
    (mkGroup pullRequests availableLabels labelName).pullRequests
      = pullRequests.filter (fun pr =>
          pr.labels.any (fun l =>
            if isPrefixGroup labelName availableLabels then
              jsStartsWith l.name (labelName ++ [':'])
            else l.name == labelName)) := rfl

/-- A one-character JS `includes` is character membership. -/
theorem jsIncludes_singleton (s : JSString) (c : Char) :
    jsIncludes s [c] = true ↔ c ∈ s := by
  induction s with
  | nil => simp [jsIncludes]
  | cons d t ih =>
    have hpre : (List.isPrefixOf [c] (d :: t)) = (c == d) := by
      simp [List.isPrefixOf]
    rw [jsIncludes, hpre, Bool.or_eq_true, beq_iff_eq, ih, List.mem_cons]

/-- `jsStartsWith` is list-prefix order. -/
theorem jsStartsWith_iff (hay pre : JSString) :
    jsStartsWith hay pre = true ↔ pre <+: hay := by
  simp [jsStartsWith, List.isPrefixOf_iff_prefix]

/-- Claim C4: for every selected group label `G`, available-label set and
record set: `G` is a prefix group iff `G` contains no colon character and at
least one available label's name starts with the literal `G + ":"`; when it
is a prefix group, a record belongs to a group labelled `G` iff it has at
least one label whose name starts with `G + ":"`; otherwise iff it has at
least one label whose name equals `G` exactly. -/
theorem prefix_group_membership_rule (labelName : JSString)
    (availableLabels : List Label) (pullRequests : List PullRequest)
    (groupByLabels : List JSString) (pr : PullRequest) :
    (isPrefixGroup labelName availableLabels = true ↔
      ((':' ∈ labelName → False) ∧
        ∃ l ∈ availableLabels, (labelName ++ [':']) <+: l.name))
    ∧ (∀ g ∈ groupsOf pullRequests groupByLabels availableLabels,
        g.label = labelName →
          (pr ∈ g.pullRequests ↔ pr ∈ pullRequests ∧
            (if isPrefixGroup labelName availableLabels then
              ∃ l ∈ pr.labels, (labelName ++ [':']) <+: l.name
            else ∃ l ∈ pr.labels, l.name = labelName))) := by
  constructor
  · rw [isPrefixGroup, Bool.and_eq_true, Bool.not_eq_true']
    have hinc : (jsIncludes labelName [':'] = false) ↔ (':' ∈ labelName → False) := by
      rw [Bool.eq_false_iff]
      exact not_congr (jsIncludes_singleton labelName ':')
    have hany : (availableLabels.any
          (fun l => jsStartsWith l.name (labelName ++ [':'])) = true)
        ↔ ∃ l ∈ availableLabels, (labelName ++ [':']) <+: l.name := by
      rw [List.any_eq_true]
      exact exists_congr fun l =>
        and_congr_right fun _ => jsStartsWith_iff l.name (labelName ++ [':'])
    exact and_congr hinc hany
  · intro g hg hlab
    rw [groupsOf] at hg
    obtain ⟨name, hname, rfl⟩ := List.mem_map.mp hg
    rw [mkGroup_label] at hlab
    subst hlab
    rw [mkGroup_pullRequests, List.mem_filter]
    by_cases hp : isPrefixGroup name availableLabels = true
    · simp [hp, jsStartsWith_iff, List.any_eq_true]
    · simp [hp, List.any_eq_true]

/-- Claim C3: for every record set, available-label set and selected-group
list, the independently computed remainder set is exactly the set of records
that belong to none of the produced groups: a record is in `ungroupedPRs`
iff it is an input record lying in no group's record subset. -/
theorem ungrouped_complements_groups (pullRequests : List PullRequest)
    (groupByLabels : List JSString) (availableLabels : List Label)
    (pr : PullRequest) :
    pr ∈ ungroupedPRs pullRequests groupByLabels availableLabels ↔
      pr ∈ pullRequests ∧
        ∀ g ∈ groupsOf pullRequests groupByLabels availableLabels,
          pr ∉ g.pullRequests := by
  rw [ungroupedPRs, List.mem_filter]
  constructor
  · rintro ⟨hmem, hflag⟩
    rw [Bool.not_eq_true', Bool.eq_false_iff] at hflag
    refine ⟨hmem, ?_⟩
    intro g hg hpg
    rw [groupsOf] at hg
    obtain ⟨name, hname, rfl⟩ := List.mem_map.mp hg
    rw [mkGroup_pullRequests, List.mem_filter] at hpg
    obtain ⟨l, hl, hcond⟩ := List.any_eq_true.mp hpg.2
    exact hflag (List.any_eq_true.mpr
      ⟨l, hl, List.any_eq_true.mpr ⟨name, hname, hcond⟩⟩)
  · rintro ⟨hmem, hnone⟩
    refine ⟨hmem, ?_⟩
    rw [Bool.not_eq_true', Bool.eq_false_iff]
    intro hflag
    obtain ⟨l, hl, hsel⟩ := List.any_eq_true.mp hflag
    obtain ⟨name, hname, hcond⟩ := List.any_eq_true.mp hsel
    refine hnone (mkGroup pullRequests availableLabels name) ?_ ?_
    · rw [groupsOf]
      exact List.mem_map.mpr ⟨name, hname, rfl⟩
    · rw [mkGroup_pullRequests, List.mem_filter]
      exact ⟨hmem, List.any_eq_true.mpr ⟨l, hl, hcond⟩⟩

/-- `Partial<FilterOptions>` as `usePullRequests` receives it
(app/types/index.ts lines 55-65 under `Partial`): every field independently
optional; an absent field is `none`. -/
structure FilterOptions where
  repositories : Option (List JSString)
  labels : Option (List JSString)
  states : Option (List PRState)
  assignees : Option (List JSString)
  authors : Option (List JSString)
  reviewers : Option (List JSString)
  searchQuery : Option JSString
  dateFrom : Option Timestamp
  dateTo : Option Timestamp
deriving DecidableEq

/-- The state block of the filter callback (usePullRequests.ts lines 84-88):
guard `filters.states && filters.states.length > 0`, reject when
`!filters.states.includes(pr.state)`. -/
def passesStates (filters : FilterOptions) (pr : PullRequest) : Bool :=
  match filters.states with
  | some states => if states.length > 0 then states.contains pr.state else true
  | none => true

/-- The repository block (lines 91-95). -/
def passesRepositories (filters : FilterOptions) (pr : PullRequest) : Bool :=
  match filters.repositories with
  | some repositories =>
    if repositories.length > 0 then repositories.contains pr.repository.fullName
    else true
  | none => true

/-- The label block (lines 98-106): at least one filter label among the
record's label names. -/
def passesLabels (filters : FilterOptions) (pr : PullRequest) : Bool :=
  match filters.labels with
  | some labels =>
    if labels.length > 0 then
      labels.any (fun filterLabel => (pr.labels.map Label.name).contains filterLabel)
    else true
  | none => true

/-- The assignee block (lines 109-116). -/
def passesAssignees (filters : FilterOptions) (pr : PullRequest) : Bool :=
  match filters.assignees with
  | some assignees =>
    if assignees.length > 0 then
      assignees.any (fun assignee => pr.assignees.contains assignee)
    else true
  | none => true

/-- The author block (lines 119-123). -/
def passesAuthors (filters : FilterOptions) (pr : PullRequest) : Bool :=
  match filters.authors with
  | some authors =>
    if authors.length > 0 then authors.contains pr.author.login else true
  | none => true

/-- The reviewer block (lines 126-133). -/
def passesReviewers (filters : FilterOptions) (pr : PullRequest) : Bool :=
  match filters.reviewers with
  | some reviewers =>
    if reviewers.length > 0 then
      reviewers.any (fun reviewer => pr.reviewers.contains reviewer)
    else true
  | none => true

/-- The search block (lines 136-145): `if (filters.searchQuery)` is JS string
truthiness, so an absent or empty query imposes nothing; otherwise the
lowercased query must occur in the lowercased title, in the decimal rendering
of the number, or in the lowercased author login. -/
def passesSearch (filters : FilterOptions) (pr : PullRequest) : Bool :=
  match filters.searchQuery with
  | some searchQuery =>
    if searchQuery.isEmpty then true
    else
      let query := jsToLower searchQuery
      let matchesTitle := jsIncludes (jsToLower pr.title) query
      let matchesNumber := jsIncludes (jsNumberToString pr.number) query
      let matchesAuthor := jsIncludes (jsToLower pr.author.login) query
      matchesTitle || matchesNumber || matchesAuthor
  | none => true

/-- The lower date bound (lines 148-150): a `Date` object is always truthy,
so the guard is presence; reject when `pr.createdAt < filters.dateFrom`. -/
def passesDateFrom (filters : FilterOptions) (pr : PullRequest) : Bool :=
  match filters.dateFrom with
  | some dateFrom => !(decide (pr.createdAt < dateFrom))
  | none => true

/-- The upper date bound (lines 151-153): reject when
`pr.createdAt > filters.dateTo`. -/
def passesDateTo (filters : FilterOptions) (pr : PullRequest) : Bool :=
  match filters.dateTo with
  | some dateTo => !(decide (pr.createdAt > dateTo))
  | none => true

/-- The whole filter callback of `filteredPullRequests` (usePullRequests.ts
lines 82-156): the early-return-false chain is the conjunction of its
blocks. -/
def prPassesFilters (filters : FilterOptions) (pr : PullRequest) : Bool :=
  passesStates filters pr && passesRepositories filters pr &&
  passesLabels filters pr && passesAssignees filters pr &&
  passesAuthors filters pr && passesReviewers filters pr &&
  passesSearch filters pr && passesDateFrom filters pr && passesDateTo filters pr

/-- `filteredPullRequests = pullRequests.filter((pr) => ...)` (line 82). -/
def applyFilters (filters : FilterOptions) (pullRequests : List PullRequest) :
    List PullRequest :=
  pullRequests.filter (prPassesFilters filters)

/-- Claim C5: applying the filter with criteria in which every field is empty
or absent (empty lists, empty search string, no date bounds) returns exactly
the input record list unchanged; an empty or absent field never acts as
"match nothing". -/
theorem applyFilters_empty_criteria_identity (filters : FilterOptions)
    (pullRequests : List PullRequest)
    (hrep : filters.repositories = none ∨ filters.repositories = some [])
    (hlab : filters.labels = none ∨ filters.labels = some [])
    (hsta : filters.states = none ∨ filters.states = some [])
    (hasg : filters.assignees = none ∨ filters.assignees = some [])
    (haut : filters.authors = none ∨ filters.authors = some [])
    (hrev : filters.reviewers = none ∨ filters.reviewers = some [])
    (hq : filters.searchQuery = none ∨ filters.searchQuery = some [])
    (hdf : filters.dateFrom = none)
    (hdt : filters.dateTo = none) :
    applyFilters filters pullRequests = pullRequests := by
  have hall : ∀ pr, prPassesFilters filters pr = true := by
    intro pr
    rw [prPassesFilters, passesStates, passesRepositories, passesLabels,
      passesAssignees, passesAuthors, passesReviewers, passesSearch,
      passesDateFrom, passesDateTo]
    rcases hrep with h1 | h1 <;> rcases hlab with h2 | h2 <;>
      rcases hsta with h3 | h3 <;> rcases hasg with h4 | h4 <;>
      rcases haut with h5 | h5 <;> rcases hrev with h6 | h6 <;>
      rcases hq with h7 | h7 <;>
      simp [h1, h2, h3, h4, h5, h6, h7, hdf, hdt, List.isEmpty]
  rw [applyFilters]
  exact List.filter_eq_self.mpr (fun pr _ => hall pr)

/-- A concrete normalized record for the closed witness theorems. -/
def samplePullRequest : PullRequest :=
  { id := 1
    number := 42
    title := "Fix bug".toList
    state := .opened
    author := { login := "alice".toList, avatarUrl := [], url := [] }
    repository := { name := "repo".toList
                    fullName := "owner/repo".toList
                    owner := "owner".toList }
    labels := [{ id := 7, name := "bug".toList, color := "ff0000".toList,
                 description := none }]
    assignees := []
    reviewers := []
    createdAt := 100
    updatedAt := 200
    closedAt := none
    mergedAt := none
    url := []
    comments := 0
    reviewComments := 0
    additions := 1
    deletions := 0
    changedFiles := 1
    isDraft := false
    isApproved := false }

/-- Witness for claim C5: with every criteria field absent, the filter
returns the concrete one-record input list unchanged. -/
theorem applyFilters_empty_criteria_identity_witness :
    applyFilters ⟨none, none, none, none, none, none, none, none, none⟩
      [samplePullRequest] = [samplePullRequest] :=
  applyFilters_empty_criteria_identity
    ⟨none, none, none, none, none, none, none, none, none⟩
    [samplePullRequest]
    (Or.inl rfl) (Or.inl rfl) (Or.inl rfl) (Or.inl rfl) (Or.inl rfl)
    (Or.inl rfl) (Or.inl rfl) rfl rfl

/-- One element of the fan-out result consumed by the labels route:
`{ repository, labels }`. -/
structure RepoLabelsResult where
  repository : JSString
  labels : List GitHubLabel
deriving DecidableEq

/-- One step of the `labelMap` dedup of the labels route
(app/api/github/labels/route.ts lines 38-42):
`if (!labelMap.has(name)) labelMap.set(name, transformedLabel)`. A JS `Map`
iterates in insertion order, so it is modelled as a list extended at the
end. -/
def labelMapInsert (labelMap : List Label) (l : Label) : List Label :=
  if labelMap.any (fun existing => existing.name == l.name) then labelMap
  else labelMap ++ [l]

/-- The aggregation loop of the labels route `GET` (lines 34-45): iterate
repository results in order, each result's labels in order, transform each
and insert if its name is new; `Array.from(labelMap.values())` returns the
entries in insertion order. -/
def uniqueLabels (results : List RepoLabelsResult) : List Label :=
  results.foldl (fun labelMap result =>
    result.labels.foldl (fun m lab => labelMapInsert m (transformLabel lab))
      labelMap) []

/-- The nested aggregation loop is the flat fold over all transformed labels
in encounter order. -/
theorem uniqueLabels_eq_foldl (results : List RepoLabelsResult) :
    uniqueLabels results
      = ((results.map (fun r => r.labels.map transformLabel)).flatten).foldl
          labelMapInsert [] := by
  rw [uniqueLabels, List.foldl_flatten, List.foldl_map]
  congr 1
  funext m r
  rw [List.foldl_map]

/-- The first-wins fold looks a name up to the accumulator first, then to the
first occurrence in the remaining input. -/
theorem foldl_labelMapInsert_find? (ls : List Label) (acc : List Label)
    (n : JSString) :
    (ls.foldl labelMapInsert acc).find? (fun l => l.name == n)
      = ((acc.find? (fun l => l.name == n)).or
          (ls.find? (fun l => l.name == n))) := by
  induction ls generalizing acc with
  | nil => simp
  | cons l ls ih =>
    rw [List.foldl_cons, ih, List.find?_cons, labelMapInsert]
    by_cases hany : acc.any (fun x => x.name == l.name) = true
    · rw [if_pos hany]
      by_cases hn : (l.name == n) = true
      · have hsome : (acc.find? (fun x => x.name == n)).isSome := by
          obtain ⟨x, hx, hxn⟩ := List.any_eq_true.mp hany
          refine List.find?_isSome.mpr ⟨x, hx, ?_⟩
          rw [beq_iff_eq] at hxn hn ⊢
          rw [hxn, hn]
        rw [hn, Option.or_of_isSome hsome]
        exact (Option.or_of_isSome hsome).symm
      · rw [Bool.eq_false_iff.mpr hn]
    · rw [if_neg hany, List.find?_append, Option.or_assoc]
      by_cases hn : (l.name == n) = true
      · rw [hn]
        have : [l].find? (fun x => x.name == n) = some l := by
          rw [List.find?_cons, hn]
        rw [this]
        rfl
      · rw [Bool.eq_false_iff.mpr hn]
        have : [l].find? (fun x => x.name == n) = none := by
          rw [List.find?_cons, Bool.eq_false_iff.mpr hn]
          rfl
        rw [this]
        rfl

/-- The first-wins fold keeps label names pairwise distinct. -/
theorem foldl_labelMapInsert_nodup (ls : List Label) (acc : List Label)
    (hacc : acc.Pairwise (fun a b => a.name ≠ b.name)) :
    (ls.foldl labelMapInsert acc).Pairwise (fun a b => a.name ≠ b.name) := by
  induction ls generalizing acc with
  | nil => simpa using hacc
  | cons l ls ih =>
    rw [List.foldl_cons]
    apply ih
    rw [labelMapInsert]
    by_cases hany : acc.any (fun x => x.name == l.name) = true
    · rw [if_pos hany]
      exact hacc
    · rw [if_neg hany, List.pairwise_append]
      refine ⟨hacc, List.pairwise_singleton _ _, ?_⟩
      intro a ha b hb
      obtain rfl : b = l := by simpa using hb
      intro heq
      exact hany (List.any_eq_true.mpr ⟨a, ha, beq_iff_eq.mpr heq⟩)

/-- Claim C6: for every sequence of per-repository label lists, the
aggregated label set is keyed by label name with first-occurrence-wins: the
aggregate's names are pairwise distinct (exactly one entry per name), and the
aggregate's entry for any name is the first transformed label of that name in
iteration order over the repository results; later same-name duplicates are
discarded. -/
theorem uniqueLabels_first_seen_wins (results : List RepoLabelsResult) :
    (uniqueLabels results).Pairwise (fun a b => a.name ≠ b.name)
    ∧ ∀ n : JSString,
        (uniqueLabels results).find? (fun l => l.name == n)
          = ((results.map (fun r => r.labels.map transformLabel)).flatten).find?
              (fun l => l.name == n) := by
  constructor
  · rw [uniqueLabels_eq_foldl]
    exact foldl_labelMapInsert_nodup _ _ List.Pairwise.nil
  · intro n
    rw [uniqueLabels_eq_foldl, foldl_labelMapInsert_find?]
    rfl

/-- The per-client mutable rate-limit fields of `GitHubClient`
(app/lib/github.ts lines 36-37): `rateLimitRemaining` and `rateLimitReset`,
both `number | null` (the stored reset is already scaled to epoch
milliseconds, line 77). -/
structure RateLimitState where
  rateLimitRemaining : Option Int
  rateLimitReset : Option Int
deriving DecidableEq

/-- An HTTP response as `GitHubClient.fetch` consumes it: `ok`, `status`, the
two rate-limit headers and the parsed body. A header field is `none` when the
header is absent or empty (JS falsy), `some v` when present and truthy with
numeric value `v` (the string `"0"` is truthy, hence `some 0` is possible). -/
structure HttpResponse (a : Type) where
  ok : Bool
  status : Int
  headerRateLimitRemaining : Option Int
  headerRateLimitReset : Option Int
  body : a
deriving DecidableEq

/-- How one `GitHubClient.fetch` call ends: parsed body on success, the
pre-check's 429 error carrying the reset time, a typed error for a non-ok
response carrying its status, or a network-level failure with no response. -/
inductive FetchOutcome (a : Type)
  | success (body : a)
  | rateLimited (resetTime : Int)
  | httpError (status : Int)
  | networkFailure
deriving DecidableEq

/-- The header update of `GitHubClient.fetch` (lines 69-78): each counter is
overwritten only when its header is truthy; the reset header is scaled by
`* 1000` to milliseconds. It runs on every received response, before the
`response.ok` check. -/
def updateRateLimitInfo {a : Type} (st : RateLimitState)
    (response : HttpResponse a) : RateLimitState :=
  { rateLimitRemaining :=
      match response.headerRateLimitRemaining with
      | some v => some v
      | none => st.rateLimitRemaining
    rateLimitReset :=
      match response.headerRateLimitReset with
      | some v => some (v * 1000)
      | none => st.rateLimitReset }

/-- The tail of `GitHubClient.fetch` after the rate-limit pre-check (lines
57-92): await the transport (a rejection yields a network failure with the
state untouched), update the counters from the headers of the received
response, then convert a non-ok response into a typed error. -/
def fetchReceive {a : Type} (st : RateLimitState)
    (transport : Option (HttpResponse a)) : RateLimitState × FetchOutcome a :=
  match transport with
  | none => (st, .networkFailure)
  | some response =>
    let st2 := updateRateLimitInfo st response
    if !response.ok then (st2, .httpError response.status)
    else (st2, .success response.body)

/-- `const resetTime = this.rateLimitReset || Date.now()` (line 47): JS `||`
falls through to `Date.now()` when the stored reset is `null` or `0`. -/
def resetTimeOf (st : RateLimitState) (now : Int) : Int :=
  match st.rateLimitReset with
  | some r => if r = 0 then now else r
  | none => now

/-- `GitHubClient.fetch` (lines 44-93) as a state step. `now` is
`Date.now()`; `transport` abstracts the network (`none` when the underlying
`fetch` itself rejects). The pre-check (lines 46-55) throws 429 when the
tracked remaining-count is exactly zero (`!== null && === 0`) and
`waitTime = resetTime - now > 0`. -/
def fetchStep {a : Type} (st : RateLimitState) (now : Int)
    (transport : Option (HttpResponse a)) : RateLimitState × FetchOutcome a :=
  if st.rateLimitRemaining = some 0 then
    if resetTimeOf st now - now > 0 then (st, .rateLimited (resetTimeOf st now))
    else fetchReceive st transport
  else fetchReceive st transport

/-- `fetchReceive` never produces the pre-check's rate-limited outcome
(helper). -/
theorem fetchReceive_ne_rateLimited {a : Type} (st : RateLimitState)
    (transport : Option (HttpResponse a)) (resetTime : Int) :
    (fetchReceive st transport).2 ≠ FetchOutcome.rateLimited resetTime := by
  cases transport with
  | none => simp [fetchReceive]
  | some response => by_cases hok : response.ok <;> simp [fetchReceive, hok]

/-- At a non-negative clock, the pre-check's wait is positive exactly when a
reset time is tracked and lies strictly in the future (helper). -/
theorem resetTime_future_iff (st : RateLimitState) (now : Int)
    (hnow : 0 ≤ now) :
    (resetTimeOf st now - now > 0) ↔
      ∃ r, st.rateLimitReset = some r ∧ now < r := by
  cases hres : st.rateLimitReset with
  | none =>
    simp only [resetTimeOf, hres]
    constructor
    · intro h
      exact absurd h (by omega)
    · rintro ⟨r, hr, hlt⟩
      exact Option.noConfusion hr
  | some r =>
    simp only [resetTimeOf, hres]
    by_cases hr0 : r = 0
    · subst hr0
      rw [if_pos rfl]
      constructor
      · intro h
        omega
      · rintro ⟨r', hr', hlt⟩
        injection hr' with h
        omega
    · rw [if_neg hr0]
      constructor
      · intro h
        exact ⟨r, rfl, by omega⟩
      · rintro ⟨r', hr', hlt⟩
        injection hr' with h
        omega

/-- When a nonzero reset time is tracked, the pre-check reports exactly it
(helper). -/
theorem resetTimeOf_eq (st : RateLimitState) (now r : Int)
    (hres : st.rateLimitReset = some r) (hr0 : r ≠ 0) :
    resetTimeOf st now = r := by
  simp only [resetTimeOf, hres]
  rw [if_neg hr0]

/-- Claim C7: before issuing any request, if the tracked remaining-count is
exactly zero and the tracked reset time is strictly in the future, the fetch
fails fast with a rate-limited outcome carrying the reset time, without
performing the HTTP call (the result ignores the transport entirely and the
state is returned unchanged) and without blocking, waiting or retrying; if
the remaining-count is unset or non-zero, or the reset time is not in the
future, the request proceeds (no rate-limited outcome arises). `Date.now()`
is non-negative. -/
theorem fetch_rate_limit_short_circuit {a : Type} (st : RateLimitState)
    (now : Int) (transport : Option (HttpResponse a)) (hnow : 0 ≤ now) :
    ((∃ resetTime, (fetchStep st now transport).2
        = FetchOutcome.rateLimited resetTime) ↔
      (st.rateLimitRemaining = some 0 ∧
        ∃ r, st.rateLimitReset = some r ∧ now < r))
    ∧ (∀ r, st.rateLimitRemaining = some 0 → st.rateLimitReset = some r →
        now < r → fetchStep st now transport = (st, .rateLimited r)) := by
  by_cases hrem : st.rateLimitRemaining = some 0
  · rw [fetchStep, if_pos hrem]
    by_cases hw : resetTimeOf st now - now > 0
    · rw [if_pos hw]
      obtain ⟨r, hres, hlt⟩ := (resetTime_future_iff st now hnow).mp hw
      have hrt : resetTimeOf st now = r :=
        resetTimeOf_eq st now r hres (by omega)
      constructor
      · constructor
        · intro _
          exact ⟨hrem, r, hres, hlt⟩
        · rintro -
          exact ⟨resetTimeOf st now, rfl⟩
      · intro r' h0 hr' hlt'
        rw [hres] at hr'
        injection hr' with h
        rw [hrt, h]
    · rw [if_neg hw]
      constructor
      · constructor
        · rintro ⟨rt, hrt⟩
          exact absurd hrt (fetchReceive_ne_rateLimited st transport rt)
        · rintro ⟨h0, r, hres, hlt⟩
          exact absurd ((resetTime_future_iff st now hnow).mpr ⟨r, hres, hlt⟩) hw
      · intro r' h0 hres hlt
        exact absurd ((resetTime_future_iff st now hnow).mpr ⟨r', hres, hlt⟩) hw
  · rw [fetchStep, if_neg hrem]
    constructor
    · constructor
      · rintro ⟨rt, hrt⟩
        exact absurd hrt (fetchReceive_ne_rateLimited st transport rt)
      · rintro ⟨h0, -⟩
        exact absurd h0 hrem
    · intro r h0 hres hlt
      exact absurd h0 hrem

/-- Witness for claim C7: a client tracking zero remaining calls and a reset
at epoch 100 ms, at clock 5 ms, short-circuits with the reset time, leaves
its state unchanged, and never consumes the transport. -/
theorem fetch_rate_limit_short_circuit_witness :
    fetchStep (a := Nat) ⟨some 0, some 100⟩ 5 none
      = (⟨some 0, some 100⟩, FetchOutcome.rateLimited 100) :=
  (fetch_rate_limit_short_circuit ⟨some 0, some 100⟩ 5 none (by decide)).2
    100 rfl rfl (by decide)

/-- Counterexample to claim C8: a request that yields a non-success (HTTP
500) response still updates both tracked rate-limit counters from the
response headers; the client state is not unchanged. -/
theorem fetch_error_response_updates_counters :
    (fetchStep (a := Nat) ⟨some 5, some 9000⟩ 0
        (some ⟨false, 500, some 10, some 2, 0⟩)).2 = FetchOutcome.httpError 500
    ∧ (fetchStep (a := Nat) ⟨some 5, some 9000⟩ 0
        (some ⟨false, 500, some 10, some 2, 0⟩)).1
      = (⟨some 10, some 2000⟩ : RateLimitState)
    ∧ (⟨some 10, some 2000⟩ : RateLimitState) ≠ ⟨some 5, some 9000⟩ := by
  decide

/-- Claim C8 (amended): the tracked rate-limit counters are updated from the
response headers of every received response, successful or not; they are
unchanged exactly when no response is received — when the rate-limit
pre-check short-circuits or when the transport itself fails — and a counter
whose header is absent keeps its previous value. -/
theorem fetch_counters_update_policy {a : Type} (st : RateLimitState)
    (now : Int) (transport : Option (HttpResponse a)) :
    ((fetchStep st now transport).2 = FetchOutcome.networkFailure →
      (fetchStep st now transport).1 = st)
    ∧ (∀ resetTime, (fetchStep st now transport).2
          = FetchOutcome.rateLimited resetTime →
        (fetchStep st now transport).1 = st)
    ∧ (∀ response, transport = some response →
        (∀ resetTime, (fetchStep st now transport).2
            ≠ FetchOutcome.rateLimited resetTime) →
        (fetchStep st now transport).1 = updateRateLimitInfo st response)
    ∧ (∀ response : HttpResponse a,
        response.headerRateLimitRemaining = none →
          (updateRateLimitInfo st response).rateLimitRemaining
            = st.rateLimitRemaining)
    ∧ (∀ response : HttpResponse a,
        response.headerRateLimitReset = none →
          (updateRateLimitInfo st response).rateLimitReset
            = st.rateLimitReset) := by
  have hsome : ∀ response : HttpResponse a,
      (fetchReceive st (some response)).1 = updateRateLimitInfo st response := by
    intro response
    by_cases hok : response.ok <;> simp [fetchReceive, hok]
  have hcase : fetchStep st now transport
      = (st, FetchOutcome.rateLimited (resetTimeOf st now))
      ∨ fetchStep st now transport = fetchReceive st transport := by
    rw [fetchStep]
    by_cases hrem : st.rateLimitRemaining = some 0
    · rw [if_pos hrem]
      by_cases hw : resetTimeOf st now - now > 0
      · rw [if_pos hw]
        exact Or.inl rfl
      · rw [if_neg hw]
        exact Or.inr rfl
    · rw [if_neg hrem]
      exact Or.inr rfl
  refine ⟨?_, ?_, ?_, ?_, ?_⟩
  · intro hout
    rcases hcase with h | h
    · rw [h]
    · rw [h] at hout ⊢
      cases htr : transport with
      | none => rfl
      | some response =>
        rw [htr] at hout
        by_cases hok : response.ok <;> simp [fetchReceive, hok] at hout
  · intro resetTime hout
    rcases hcase with h | h
    · rw [h]
    · rw [h] at hout
      exact absurd hout (fetchReceive_ne_rateLimited st transport resetTime)
  · intro response htr hno
    rcases hcase with h | h
    · exact absurd (by rw [h]) (hno (resetTimeOf st now))
    · rw [h, htr]
      exact hsome response
  · intro response hh
    simp [updateRateLimitInfo, hh]
  · intro response hh
    simp [updateRateLimitInfo, hh]

/-- A parsed repository ref as the API routes build it: JS destructuring
`const [owner, name] = repo.trim().split('/')` leaves a component
`undefined` (modelled `none`) when the split yields no such position. -/
structure ParsedRepoRef where
  owner : Option JSString
  repo : Option JSString
deriving DecidableEq

/-- The `repoList` parsing shared verbatim by the pulls route
(app/api/github/pulls/route.ts lines 28-31) and the labels route
(app/api/github/labels/route.ts lines 25-28):
`repositories.split(',').map(...)` with per-entry trim and `/`-split. -/
def parseRepoList (repositories : JSString) : List ParsedRepoRef :=
  (jsSplit repositories ',').map (fun repo =>
    { owner := (jsSplit (jsTrim repo) '/')[0]?
      repo := (jsSplit (jsTrim repo) '/')[1]? })

/-- Counterexample to claim C9: parsing `"owner1/repo1,badref"` dispatches
two refs, the malformed entry included: it becomes a ref with an undefined
name rather than being dropped before dispatch. -/
theorem parseRepoList_keeps_malformed :
    parseRepoList "owner1/repo1,badref".toList
      = [{ owner := some "owner1".toList, repo := some "repo1".toList },
         { owner := some "badref".toList, repo := none }] := by
  decide

/-- Claim C9 (amended): malformed entries are not dropped before dispatch:
every comma-separated entry of the repositories parameter, malformed or not,
contributes exactly one dispatched ref, whose owner is the first
`/`-segment of the trimmed entry and whose name is the second segment or
undefined when missing. -/
theorem parseRepoList_one_ref_per_entry (repositories : JSString) :
    (parseRepoList repositories).length = (jsSplit repositories ',').length
    ∧ ∀ i : Nat, (parseRepoList repositories)[i]?
        = ((jsSplit repositories ',')[i]?).map (fun repo =>
            { owner := (jsSplit (jsTrim repo) '/')[0]?
              repo := (jsSplit (jsTrim repo) '/')[1]? }) := by
  constructor
  · rw [parseRepoList, List.length_map]
  · intro i
    rw [parseRepoList, List.getElem?_map]

end PRDash
